import Mathlib

/-!
Verification development for the ChessAnalysis repository.

The Python sources under `src/acco` are shallowly embedded: strings are
`String`/`List Char`, machine integers are `Int`/`Nat`, SQLite tables are
lists of rows, the Stockfish engine is an oracle function that may fail
(`Except`), and Python exceptions are `Option`/`Except` values.  Scanning
loops are written with an explicit fuel argument equal to the input length
so that they are structurally recursive and evaluate inside the kernel;
each scanning step consumes at least one character, so the fuel is an upper
bound on the number of steps and is never exhausted.
-/

namespace ChessAnalysis

/-! ## Python string primitives -/

/-- Characters stripped by Python's `str.strip()` and matched by the regex
class `\s` (ASCII range, which is all that PGN data contains). -/
def isPySpace (c : Char) : Bool :=
  c = ' ' || c = '\t' || c = '\n' || c = '\r' || c = '\x0b' || c = '\x0c'

/-- Python `str.strip()` on a character list. -/
def pyStripList (l : List Char) : List Char :=
  ((l.dropWhile isPySpace).reverse.dropWhile isPySpace).reverse

/-- Python `str.strip()`. -/
def pyStrip (s : String) : String := ⟨pyStripList s.toList⟩

/-- Python `str.lower()` (ASCII case folding suffices for the player names
compared in the sources). -/
def pyLower (s : String) : String := ⟨s.toList.map Char.toLower⟩

/-- Splitting scan of Python `str.split(sep)` for a non-empty separator:
at each position, if `sep` starts here, emit the accumulated chunk and
continue after `sep`; otherwise advance one character. -/
def pySplitGo (sep : List Char) : ℕ → List Char → List Char → List (List Char)
  | _, [], acc => [acc.reverse]
  | 0, l, acc => [acc.reverse ++ l]
  | fuel + 1, c :: cs, acc =>
    if sep.isPrefixOf (c :: cs) && !sep.isEmpty then
      acc.reverse :: pySplitGo sep fuel ((c :: cs).drop sep.length) []
    else
      pySplitGo sep fuel cs (c :: acc)

/-- Python `s.split(sep)` (non-empty `sep`), on character lists. -/
def pySplit (l : List Char) (sep : List Char) : List (List Char) :=
  pySplitGo sep l.length l []

/-! ## Model of `datetime.strptime(s, "%Y.%m.%d %H:%M:%S")` followed by
`int(dt.replace(tzinfo=timezone.utc).timestamp())`.

CPython's `_strptime` compiles the format to a regex: `%Y` is exactly four
digits; `%m`, `%d`, `%H`, `%M`, `%S` are one or two digits matched greedily
with the value ranges below; a space in the format matches one or more
whitespace characters; the regex must consume the whole string; the
resulting `datetime` constructor additionally validates the day against
the month length and rejects leap seconds. -/

def digitVal (c : Char) : ℕ := c.toNat - 48

/-- Exactly four digits (the `%Y` directive). -/
def parse4Digits : List Char → Option (ℕ × List Char)
  | a :: b :: c :: d :: rest =>
    if a.isDigit && b.isDigit && c.isDigit && d.isDigit then
      some (1000 * digitVal a + 100 * digitVal b + 10 * digitVal c + digitVal d, rest)
    else none
  | _ => none

/-- One or two digits, two-digit reading preferred when its value satisfies
`ok2`, single-digit reading accepted when its value satisfies `ok1`
(mirrors the greedy alternations such as `1[0-2]|0[1-9]|[1-9]`). -/
def parse2or1 (ok2 ok1 : ℕ → Bool) : List Char → Option (ℕ × List Char)
  | a :: b :: rest =>
    if a.isDigit && b.isDigit && ok2 (10 * digitVal a + digitVal b) then
      some (10 * digitVal a + digitVal b, rest)
    else if a.isDigit && ok1 (digitVal a) then
      some (digitVal a, b :: rest)
    else none
  | [a] => if a.isDigit && ok1 (digitVal a) then some (digitVal a, []) else none
  | [] => none

/-- A single literal character of the format. -/
def expectChar (c : Char) : List Char → Option (List Char)
  | x :: rest => if x = c then some rest else none
  | [] => none

/-- One or more whitespace characters (a blank in the format string). -/
def expectWs : List Char → Option (List Char)
  | x :: rest => if isPySpace x then some (rest.dropWhile isPySpace) else none
  | [] => none

def isLeapYear (y : ℕ) : Bool := (y % 4 = 0 && y % 100 ≠ 0) || y % 400 = 0

def daysInMonth (y m : ℕ) : ℕ :=
  if m = 2 then (if isLeapYear y then 29 else 28)
  else if m = 4 || m = 6 || m = 9 || m = 11 then 30
  else 31

/-- Days in the months strictly before month `m` of year `y`. -/
def daysBeforeMonth (y m : ℕ) : ℕ :=
  ((List.range (m - 1)).map (fun i => daysInMonth y (i + 1))).sum

/-- Python `datetime.toordinal()`: day number in the proleptic Gregorian
calendar, with `0001-01-01` as day 1. -/
def toOrdinal (y m d : ℕ) : ℕ :=
  365 * (y - 1) + (y - 1) / 4 - (y - 1) / 100 + (y - 1) / 400 + daysBeforeMonth y m + d

/-- Ordinal of the UNIX epoch `1970-01-01`. -/
def epochOrdinal : ℕ := 719163

/-- The composed timestamp extraction: `strptime` with format
`"%Y.%m.%d %H:%M:%S"`, interpreted in UTC, truncated to integer seconds.
Returns `none` where Python raises. -/
def pyStrptimeTimestamp (s : String) : Option ℤ := do
  let (y, r1) ← parse4Digits s.toList
  let r2 ← expectChar '.' r1
  let (mo, r3) ← parse2or1 (fun v => 1 ≤ v && v ≤ 12) (fun v => 1 ≤ v) r2
  let r4 ← expectChar '.' r3
  let (d, r5) ← parse2or1 (fun v => 1 ≤ v && v ≤ 31) (fun v => 1 ≤ v) r4
  let r6 ← expectWs r5
  let (h, r7) ← parse2or1 (fun v => v ≤ 23) (fun _ => true) r6
  let r8 ← expectChar ':' r7
  let (mi, r9) ← parse2or1 (fun v => v ≤ 59) (fun _ => true) r8
  let r10 ← expectChar ':' r9
  let (sec, r11) ← parse2or1 (fun v => v ≤ 61) (fun _ => true) r10
  if r11 = [] && 1 ≤ y && d ≤ daysInMonth y mo && sec ≤ 59 then
    some (((toOrdinal y mo d : ℤ) - (epochOrdinal : ℤ)) * 86400
      + (h : ℤ) * 3600 + (mi : ℤ) * 60 + (sec : ℤ))
  else none

/-! ## Model of `re.findall(r'\[(\w+)\s+"([^"]*)"\]', text)` and of
Python `dict(pairs).get(key, default)` (where a later pair overrides an
earlier one with the same key). -/

/-- Regex class `\w` (ASCII part; PGN tag names are ASCII). -/
def isWordChar (c : Char) : Bool := c.isAlphanum || c = '_'

/-- Attempt to match `\[(\w+)\s+"([^"]*)"\]` at the head of the list,
returning the two groups and the remaining characters. -/
def matchTag : List Char → Option (String × String × List Char)
  | '[' :: rest =>
    if (rest.takeWhile isWordChar).isEmpty then none
    else if ((rest.dropWhile isWordChar).takeWhile isPySpace).isEmpty then none
    else
      match (rest.dropWhile isWordChar).dropWhile isPySpace with
      | '"' :: r3 =>
        match r3.dropWhile (fun c => !(c = '"')) with
        | '"' :: ']' :: r5 =>
          some (⟨rest.takeWhile isWordChar⟩, ⟨r3.takeWhile (fun c => !(c = '"'))⟩, r5)
        | _ => none
      | _ => none
  | _ => none

/-- Left-to-right non-overlapping scan of `re.findall`: try to match at
each position, and on success continue after the match. -/
def findTagsGo : ℕ → List Char → List (String × String)
  | _, [] => []
  | 0, _ => []
  | fuel + 1, c :: cs =>
    match matchTag (c :: cs) with
    | some (k, v, rest) => (k, v) :: findTagsGo fuel rest
    | none => findTagsGo fuel cs

/-- All `[Key "Value"]` tag pairs of a PGN block, in order of occurrence. -/
def findTags (l : List Char) : List (String × String) := findTagsGo l.length l

/-- Python `dict(pairs).get(k)`: value of the last pair with key `k`. -/
def pyGet (pairs : List (String × String)) (k : String) : Option String :=
  (pairs.reverse.find? (fun p => p.1 = k)).map (fun p => p.2)

/-- Python `dict(pairs).get(k, d)`. -/
def pyGetD (pairs : List (String × String)) (k d : String) : String :=
  (pyGet pairs k).getD d

/-- Python truthiness of a `str`-or-`None` value: `None` and `""` are falsy. -/
def pyTruthy : Option String → Bool
  | none => false
  | some s => !(s = "")

/-- Python `a or b` on `str`-or-`None` values. -/
def pyOr (a b : Option String) : Option String := if pyTruthy a then a else b

/-! ## The PGN batch parser (`fetch_games.parse_pgn_games`). -/

/-- One parsed game record, the dict built by `parse_pgn_games`. -/
structure GameRec where
  url : String
  pgn : String
  end_time : ℤ
  time_control : String
  white : String
  black : String
  deriving DecidableEq

/-- Body of the `parse_pgn_games` loop for one block (the block already
carries its `"[Event"` prefix restored where applicable). -/
def mkGameRec (blk : List Char) : GameRec :=
  let pgn := pyStripList blk
  let tags := findTags pgn
  let date := pyOr (pyGet tags "EndDate")
    (pyOr (pyGet tags "UTCDate") (some (pyGetD tags "Date" "")))
  let time_str := pyOr (pyGet tags "EndTime")
    (pyOr (pyGet tags "UTCTime") (some (pyGetD tags "StartTime" "")))
  let end_ts : ℤ :=
    match pyStrptimeTimestamp (date.getD "" ++ " " ++ time_str.getD "") with
    | some ts => ts
    | none => 0
  { url := pyGetD tags "Link" ""
    pgn := ⟨pgn⟩
    end_time := end_ts
    time_control := pyGetD tags "TimeControl" ""
    white := pyGetD tags "White" ""
    black := pyGetD tags "Black" "" }

/-- The split separator `"\n\n[Event"` used by `parse_pgn_games`. -/
def eventSep : List Char := '\n' :: '\n' :: '[' :: 'E' :: 'v' :: 'e' :: 'n' :: 't' :: []

/-- The restored prefix `"[Event"` for every block after the first. -/
def eventPrefix : List Char := '[' :: 'E' :: 'v' :: 'e' :: 'n' :: 't' :: []

/-- `fetch_games.parse_pgn_games`: split the raw text on `"\n\n[Event"`,
restore the `"[Event"` prefix on every block after the first (`i > 0` in
the `enumerate` loop), and build one record per block. -/
def parse_pgn_games (raw_pgn_text : String) : List GameRec :=
  match pySplit raw_pgn_text.toList eventSep with
  | [] => []
  | b :: bs => mkGameRec b :: bs.map (fun blk => mkGameRec (eventPrefix ++ blk))

/-! ## The move-replay engine (`game_viewer.GameViewer`).

A `chess.Board` is determined by the position it was constructed from and
the sequence of moves pushed onto it, so it is embedded as that pair.
`chess.Board()` constructs the standard starting position, while
`chess.pgn.read_game(...).board()` constructs the game's own initial
position (which differs for games with a `FEN`/`SetUp` header). -/

/-- Moves are opaque tokens supplied by the external PGN reader. -/
abbrev Move := String

/-- A `chess.Board`: its construction position plus the pushed move stack. -/
structure Board where
  startFen : String
  stack : List Move
  deriving DecidableEq

/-- `board.push(move)`. -/
def pushB (b : Board) (m : Move) : Board := { b with stack := b.stack ++ [m] }

/-- FEN of the standard starting position, i.e. of `chess.Board()`. -/
def standardStartFen : String :=
  "rnbqkbnr/pppppppp/8/8/8/8/PPPPPPPP/RNBQKBNR w KQkq - 0 1"

/-- A parsed game as produced by the external `chess.pgn.read_game`:
its initial position, its mainline move list, and its `White`/`Black`
header values. -/
structure Game where
  startFen : String
  moves : List Move
  white : String
  black : String
  deriving DecidableEq

/-- The replay cursor held by the viewer: `self.moves`, `self.idx`,
`self.board`. -/
structure ViewerState where
  moves : List Move
  idx : ℕ
  board : Board
  deriving DecidableEq

/-- The replay state set up by `on_game_select`: `self.moves` from the
mainline, `self.board = game_obj.board()`, `self.idx = 0`. -/
def initView (g : Game) : ViewerState :=
  { moves := g.moves, idx := 0, board := { startFen := g.startFen, stack := [] } }

/-- `go_next`: if `idx < len(moves)`, push `moves[idx]` and advance. -/
def go_next (s : ViewerState) : ViewerState :=
  if h : s.idx < s.moves.length then
    { s with board := pushB s.board (s.moves.get ⟨s.idx, h⟩), idx := s.idx + 1 }
  else s

/-- `on_slider_change` with target index `k`: when `k` differs from the
current index, rebuild `self.board` from a fresh `chess.Board()` by pushing
`moves[i]` for each `i < k` with `i < len(moves)`, and set `idx := k`. -/
def on_slider_change (k : ℕ) (s : ViewerState) : ViewerState :=
  if k ≠ s.idx then
    { s with
      board := (List.range k).foldl
        (fun b i =>
          if h : i < s.moves.length then pushB b (s.moves.get ⟨i, h⟩) else b)
        { startFen := standardStartFen, stack := [] }
      idx := k }
  else s

/-! ## The evaluation pipeline (`calculate_stockfish_scores`,
`calculate_wdl_probabilities`, `run_evaluation_analysis`).

The engine is an oracle: given a search depth and a board it either fails
(engine unavailable / errored, a raised exception in Python) or returns an
analysis whose score and WDL figures can be taken from either side's point
of view (`info["score"].pov(color)`). -/

inductive Color where
  | white
  | black
  deriving DecidableEq

/-- A pov-adjusted engine score as in `python-chess`: a forced-mate
distance (`Mate(m)`, signed, `MateGiven` for a delivered mate), or a
centipawn value that may be absent. -/
inductive EngScore where
  | mate (m : ℤ)
  | mateGiven
  | cp (v : Option ℤ)
  deriving DecidableEq

/-- Win/draw/loss permille figures returned by the oracle. -/
structure EngWdl where
  wins : ℤ
  draws : ℤ
  losses : ℤ
  deriving DecidableEq

/-- One `engine.analyse` result, pov-adjustable. -/
structure EngInfo where
  score : Color → EngScore
  wdl : Color → EngWdl

/-- The external engine: `analyse(board, Limit(depth=depth))`, which may
raise. -/
abbrev Oracle : Type := ℕ → Board → Except String EngInfo

/-- POV selection shared by both evaluation loops: the current user's side
if the user is playing, else White. -/
def povColorFor (user : String) (g : Game) : Color :=
  if pyLower g.white = pyLower user then Color.white
  else if pyLower g.black = pyLower user then Color.black
  else Color.white

/-- `score_obj.is_mate()`. -/
def isMateOf : EngScore → Bool
  | EngScore.mate _ => true
  | EngScore.mateGiven => true
  | EngScore.cp _ => false

/-- The recorded score: `score_obj.score(mate_score=10)` in the mate case,
else `score_obj.score() / 100` with `0` for a missing value. -/
def scoreOf : EngScore → ℚ
  | EngScore.mate m => ((if 0 < m then 10 - m else -10 - m : ℤ) : ℚ)
  | EngScore.mateGiven => (10 : ℚ)
  | EngScore.cp (some v) => (v : ℚ) / 100
  | EngScore.cp none => 0

/-- The recorded WDL triple: permille figures divided by `1000.0`. -/
def wdlEntry (w : EngWdl) : ℚ × ℚ × ℚ :=
  ((w.wins : ℚ) / 1000, (w.draws : ℚ) / 1000, (w.losses : ℚ) / 1000)

/-- The `for move in game.mainline_moves()` loop of
`calculate_stockfish_scores`: push each move, analyse, and append the
extracted score and mate flag. -/
def calcScoresLoop (o : Oracle) (depth : ℕ) (c : Color) :
    Board → List Move → Except String (List ℚ × List Bool)
  | _, [] => Except.ok ([], [])
  | b, m :: rest =>
    match o depth (pushB b m) with
    | Except.error e => Except.error e
    | Except.ok info =>
      match calcScoresLoop o depth c (pushB b m) rest with
      | Except.error e => Except.error e
      | Except.ok (ss, ms) =>
        Except.ok (scoreOf (info.score c) :: ss, isMateOf (info.score c) :: ms)

/-- `calculate_stockfish_scores(game, depth)`: analyse the initial board,
then every position along the mainline, from the POV side. -/
def calculate_stockfish_scores (o : Oracle) (depth : ℕ) (user : String) (g : Game) :
    Except String (List ℚ × List Bool) :=
  let c := povColorFor user g
  let b0 : Board := { startFen := g.startFen, stack := [] }
  match o depth b0 with
  | Except.error e => Except.error e
  | Except.ok info =>
    match calcScoresLoop o depth c b0 g.moves with
    | Except.error e => Except.error e
    | Except.ok (ss, ms) =>
      Except.ok (scoreOf (info.score c) :: ss, isMateOf (info.score c) :: ms)

/-- The mainline loop of `calculate_wdl_probabilities`. -/
def calcWdlLoop (o : Oracle) (depth : ℕ) (c : Color) :
    Board → List Move → Except String (List (ℚ × ℚ × ℚ))
  | _, [] => Except.ok []
  | b, m :: rest =>
    match o depth (pushB b m) with
    | Except.error e => Except.error e
    | Except.ok info =>
      match calcWdlLoop o depth c (pushB b m) rest with
      | Except.error e => Except.error e
      | Except.ok ps => Except.ok (wdlEntry (info.wdl c) :: ps)

/-- `calculate_wdl_probabilities(game, depth)`. -/
def calculate_wdl_probabilities (o : Oracle) (depth : ℕ) (user : String) (g : Game) :
    Except String (List (ℚ × ℚ × ℚ)) :=
  let c := povColorFor user g
  let b0 : Board := { startFen := g.startFen, stack := [] }
  match o depth b0 with
  | Except.error e => Except.error e
  | Except.ok info =>
    match calcWdlLoop o depth c b0 g.moves with
    | Except.error e => Except.error e
    | Except.ok ps => Except.ok (wdlEntry (info.wdl c) :: ps)

/-- The serialized evaluation blob written to the `evaluation_data`
column (`json.dumps`/`json.loads` are mutually inverse on it, so it is
kept structured). -/
structure EvalData where
  scores : List ℚ
  is_mate : List Bool
  wdl_probs : List (ℚ × ℚ × ℚ)
  depth : ℕ
  deriving DecidableEq

/-! ## The game store (`ensure_db` and the `INSERT OR IGNORE` loop of
`fetch_current_month_games_and_save_to_db`).

The `games` table (`url TEXT PRIMARY KEY, pgn, end_time, white, black,
time_control, evaluation_data`) is a list of rows; the primary key makes
`INSERT OR IGNORE` a silent no-op whenever a row with the same `url`
already exists. -/

/-- One row of the `games` table. -/
structure GameRow where
  url : String
  pgn : String
  end_time : ℤ
  white : String
  black : String
  time_control : String
  evaluation_data : Option EvalData
  deriving DecidableEq

/-- The row inserted for a freshly fetched record: `evaluation_data` is
not in the column list, so it is NULL. -/
def recToRow (g : GameRec) : GameRow :=
  { url := g.url, pgn := g.pgn, end_time := g.end_time, white := g.white,
    black := g.black, time_control := g.time_control, evaluation_data := none }

/-- The SQLite `games` table. -/
abbrev Store : Type := List GameRow

/-- `INSERT OR IGNORE INTO games ... VALUES (...)`: a no-op when a row
with the same primary key `url` exists, else an append; the Boolean is
`cur.rowcount`. -/
def insertOrIgnore (s : Store) (g : GameRec) : Store × Bool :=
  if s.any (fun r => r.url = g.url) then (s, false) else (s ++ [recToRow g], true)

/-- The insert loop of `fetch_current_month_games_and_save_to_db` (and of
`update_database`): insert each record, counting the newly inserted rows. -/
def upsert : List GameRec → Store → Store × ℕ
  | [], s => (s, 0)
  | g :: gs, s =>
    let step := insertOrIgnore s g
    let rest := upsert gs step.1
    (rest.1, (if step.2 then 1 else 0) + rest.2)

/-- `UPDATE games SET evaluation_data = ? WHERE url = ?`
(from `run_evaluation_analysis`). -/
def updateEvaluation (s : Store) (url : String) (d : EvalData) : Store :=
  s.map (fun r => if r.url = url then { r with evaluation_data := some d } else r)

/-- A sequence of evaluation writes performed between two upsert calls. -/
def applyEvalUpdates (ups : List (String × EvalData)) (s : Store) : Store :=
  ups.foldl (fun s p => updateEvaluation s p.1 p.2) s

/-- `run_evaluation_analysis(url, pgn, depth)` against a store: compute
scores, mate flags and WDL probabilities (exceptions from the oracle
propagate, in which case the database write is never reached), then
persist the blob for `url` in a single UPDATE. -/
def run_evaluation_analysis (o : Oracle) (user url : String) (g : Game)
    (depth : ℕ) (store : Store) : Store × Except String EvalData :=
  match calculate_stockfish_scores o depth user g with
  | Except.error e => (store, Except.error e)
  | Except.ok (scores, is_mate) =>
    match calculate_wdl_probabilities o depth user g with
    | Except.error e => (store, Except.error e)
    | Except.ok wdl_probs =>
      let data : EvalData :=
        { scores := scores, is_mate := is_mate, wdl_probs := wdl_probs, depth := depth }
      (updateEvaluation store url data, Except.ok data)

/-! ## The rating-window selection of `plot_elo_history`. -/

/-- Python list slicing `l[a:b]`: negative bounds address from the end,
and both bounds are clamped to the list. -/
def pySlice {α : Type} (l : List α) (a b : ℤ) : List α :=
  let n : ℤ := l.length
  let a' : ℤ := if a < 0 then max 0 (n + a) else min n a
  let b' : ℤ := if b < 0 then max 0 (n + b) else min n b
  (l.take b'.toNat).drop a'.toNat

/-- The window selection of `plot_elo_history`: clamp `start_val` down to
`end_val` when it exceeds it, then slice
`processed_games[max(0, start_val-1) : min(len, end_val)]`. -/
def eloWindow {α : Type} (games : List α) (start_val end_val : ℤ) : List α :=
  let s := if start_val > end_val then end_val else start_val
  let start_index : ℤ := max 0 (s - 1)
  let end_index : ℤ := min (games.length : ℤ) end_val
  pySlice games start_index end_index

/-! ## Parser theorems -/

lemma parse_pgn_games_length (raw : String) :
    (parse_pgn_games raw).length = (pySplit raw.toList eventSep).length := by
  rcases hsp : pySplit raw.toList eventSep with _ | ⟨b, bs⟩ <;>
    simp only [String.toList] at hsp <;> simp [parse_pgn_games, hsp]

lemma parse_pgn_games_get? (raw : String) (i : ℕ) (rec : GameRec)
    (h : (parse_pgn_games raw).get? i = some rec) :
    ∃ blk, (pySplit raw.toList eventSep).get? i = some blk ∧
      rec = mkGameRec (if i = 0 then blk else eventPrefix ++ blk) := by
  rcases hsp : pySplit raw.toList eventSep with _ | ⟨b, bs⟩ <;>
    rw [parse_pgn_games, hsp] at h
  · simp at h
  · match i, h with
    | 0, h =>
      refine ⟨b, rfl, ?_⟩
      simpa using h.symm
    | i + 1, h =>
      simp only [List.get?_cons_succ, List.get?_eq_getElem?, List.getElem?_map] at h
      obtain ⟨blk, hb, hrec⟩ : ∃ a, bs[i]? = some a ∧ mkGameRec (eventPrefix ++ a) = rec := by
        simpa using h
      exact ⟨blk, by simpa [List.get?_cons_succ, List.get?_eq_getElem?] using hb,
        by simp [hrec.symm]⟩

/-- C9: `parse_pgn_games` is total (it is a function in this embedding;
the timestamp parse failure is mapped to `endTime = 0` internally), it
returns exactly one record per block of the `"\n\n[Event"` split, and on
the empty string it returns a single record with `url`, `pgn`, `white`,
`black` all empty and `end_time = 0`. -/
theorem parse_total_one_record_per_block :
    (∀ raw : String,
      (parse_pgn_games raw).length = (pySplit raw.toList eventSep).length) ∧
    parse_pgn_games "" =
      [{ url := "", pgn := "", end_time := 0, time_control := "",
         white := "", black := "" }] :=
  ⟨parse_pgn_games_length, by decide⟩

/-- Input whose first split block is blank: the raw text starts with the
separator `"\n\n[Event"`, so the split yields a leading empty block. -/
def c1raw : String := "\n\n[Event \"T\"]\n1. e4 *"

/-- C1 counterexample: `c1raw` contains exactly one well-formed game
block, yet the parser emits two records — the blank leading block is not
skipped; it produces a record with an empty `pgn`. -/
theorem blank_block_produces_record :
    (parse_pgn_games c1raw).length = 2 ∧
    (parse_pgn_games c1raw).map (fun r => r.pgn) = ["", "[Event \"T\"]\n1. e4 *"] := by
  constructor <;> decide

/-- C1 (amended): the parser emits one record per split block in source
order — including blank/whitespace-only blocks — and each record's `pgn`
is the verbatim block text (with the `"[Event"` prefix restored for every
block after the first), trimmed. -/
theorem parse_pgn_verbatim :
    (∀ raw : String,
      (parse_pgn_games raw).length = (pySplit raw.toList eventSep).length) ∧
    ∀ (raw : String) (i : ℕ) (rec : GameRec) (blk : List Char),
      (parse_pgn_games raw).get? i = some rec →
      (pySplit raw.toList eventSep).get? i = some blk →
      rec.pgn = ⟨pyStripList (if i = 0 then blk else eventPrefix ++ blk)⟩ := by
  refine ⟨parse_pgn_games_length, ?_⟩
  intro raw i rec blk h hblk
  obtain ⟨blk', hblk', hrec⟩ := parse_pgn_games_get? raw i rec h
  rw [hblk] at hblk'
  cases hblk'
  cases hrec
  rfl

/-- The second split block of `c1raw` (without its restored prefix). -/
def c1blk : List Char := " \"T\"]\n1. e4 *".toList

/-- The second record parsed from `c1raw`. -/
def c1rec : GameRec := mkGameRec ("[Event \"T\"]\n1. e4 *".toList)

/-- Witness for C1 (amended), at `c1raw` and index 1. -/
theorem parse_pgn_verbatim_witness :
    c1rec.pgn = ⟨pyStripList (if 1 = 0 then c1blk else eventPrefix ++ c1blk)⟩ :=
  parse_pgn_verbatim.2 c1raw 1 c1rec c1blk (by decide) (by decide)

/-- A block carrying `UTCDate`, `UTCTime` and `EndTime` tags but no
`EndDate`: the claimed pairing rule would use the `UTCDate`+`UTCTime`
pair (10:00), but the code selects date and time independently and
combines `UTCDate` with `EndTime` (12:00). -/
def c5raw : String :=
  "[UTCDate \"2024.01.01\"]\n[UTCTime \"10:00:00\"]\n[EndTime \"12:00:00\"]"

/-- C5 counterexample: the record's `end_time` is the epoch value of
`2024-01-01 12:00:00Z` (UTCDate combined with EndTime), not the epoch
value of the `UTCDate`+`UTCTime` pair `2024-01-01 10:00:00Z` that the
claimed pair-wise fallback would produce. -/
theorem end_time_mixes_pairs :
    (parse_pgn_games c5raw).map (fun r => r.end_time) = [1704110400] ∧
    pyStrptimeTimestamp "2024.01.01 12:00:00" = some 1704110400 ∧
    pyStrptimeTimestamp "2024.01.01 10:00:00" = some 1704103200 ∧
    (1704110400 : ℤ) ≠ 1704103200 := by
  refine ⟨by decide, by decide, by decide, by decide⟩

/-- C5 (amended): for every emitted record, `end_time` is computed from
`date` = the first truthy of `EndDate`, `UTCDate`, `Date` (default `""`)
and `time` = the first truthy of `EndTime`, `UTCTime`, `StartTime`
(default `""`), selected independently; `"date time"` is parsed as
`"%Y.%m.%d %H:%M:%S"` in UTC, any parse failure yields `end_time = 0`,
and the record is emitted either way (one record per split block). -/
theorem end_time_fallback_chain :
    (∀ raw : String,
      (parse_pgn_games raw).length = (pySplit raw.toList eventSep).length) ∧
    ∀ (raw : String) (i : ℕ) (rec : GameRec),
      (parse_pgn_games raw).get? i = some rec →
      rec.end_time =
        (let tags := findTags rec.pgn.toList
         let date := pyOr (pyGet tags "EndDate")
           (pyOr (pyGet tags "UTCDate") (some (pyGetD tags "Date" "")))
         let time_str := pyOr (pyGet tags "EndTime")
           (pyOr (pyGet tags "UTCTime") (some (pyGetD tags "StartTime" "")))
         match pyStrptimeTimestamp (date.getD "" ++ " " ++ time_str.getD "") with
         | some ts => ts
         | none => 0) := by
  refine ⟨parse_pgn_games_length, ?_⟩
  intro raw i rec h
  obtain ⟨blk, _, hrec⟩ := parse_pgn_games_get? raw i rec h
  cases hrec
  rfl

/-- The single record parsed from `c5raw`. -/
def c5rec : GameRec := mkGameRec c5raw.toList

/-- Witness for C5 (amended), at `c5raw` and index 0. -/
theorem end_time_fallback_chain_witness :
    c5rec.end_time =
      (let tags := findTags c5rec.pgn.toList
       let date := pyOr (pyGet tags "EndDate")
         (pyOr (pyGet tags "UTCDate") (some (pyGetD tags "Date" "")))
       let time_str := pyOr (pyGet tags "EndTime")
         (pyOr (pyGet tags "UTCTime") (some (pyGetD tags "StartTime" "")))
       match pyStrptimeTimestamp (date.getD "" ++ " " ++ time_str.getD "") with
       | some ts => ts
       | none => 0) :=
  end_time_fallback_chain.2 c5raw 0 c5rec (by decide)

/-! ## Store theorems -/

lemma insertOrIgnore_any_mono (s : Store) (g : GameRec) (p : GameRow → Bool)
    (h : s.any p = true) : ((insertOrIgnore s g).1).any p = true := by
  unfold insertOrIgnore
  split <;> simp_all

lemma insertOrIgnore_any_self (s : Store) (g : GameRec) :
    ((insertOrIgnore s g).1).any (fun r => r.url = g.url) = true := by
  unfold insertOrIgnore
  split <;> simp_all [recToRow]

lemma upsert_any_mono (gs : List GameRec) (s : Store) (p : GameRow → Bool)
    (h : s.any p = true) : ((upsert gs s).1).any p = true := by
  induction gs generalizing s with
  | nil => exact h
  | cons g gs ih => exact ih _ (insertOrIgnore_any_mono s g p h)

lemma upsert_any_of_mem (gs : List GameRec) (s : Store) (g : GameRec)
    (hg : g ∈ gs) : ((upsert gs s).1).any (fun r => r.url = g.url) = true := by
  induction gs generalizing s with
  | nil => cases hg
  | cons g' gs ih =>
    rcases List.mem_cons.mp hg with h | h
    · cases h
      exact upsert_any_mono gs _ _ (insertOrIgnore_any_self s g)
    · exact ih _ h

lemma updateEvaluation_any_url (s : Store) (u : String) (d : EvalData) (x : String) :
    (updateEvaluation s u d).any (fun r => r.url = x) = s.any (fun r => r.url = x) := by
  unfold updateEvaluation
  rw [List.any_map]
  congr 1
  funext r
  by_cases h : r.url = u <;> simp [h]

lemma applyEvalUpdates_any_url (ups : List (String × EvalData)) (s : Store) (x : String) :
    (applyEvalUpdates ups s).any (fun r => r.url = x) = s.any (fun r => r.url = x) := by
  induction ups generalizing s with
  | nil => rfl
  | cons p ups ih =>
    unfold applyEvalUpdates at ih ⊢
    rw [List.foldl_cons, ih, updateEvaluation_any_url]

lemma upsert_noop (gs : List GameRec) (s : Store)
    (h : ∀ g ∈ gs, s.any (fun r => r.url = g.url) = true) :
    upsert gs s = (s, 0) := by
  induction gs with
  | nil => rfl
  | cons g gs ih =>
    have hg := h g (List.mem_cons_self g gs)
    have hins : insertOrIgnore s g = (s, false) := by
      unfold insertOrIgnore
      simp [hg]
    rw [upsert, hins]
    simp [ih (fun g' hg' => h g' (List.mem_cons_of_mem g hg'))]

/-- C2: a second `upsert` of the identical record set — after any
sequence of `evaluation_data` writes performed between the two calls —
leaves the store exactly as it was and reports zero newly inserted rows. -/
theorem upsert_idempotent (gs : List GameRec) (s : Store)
    (ups : List (String × EvalData)) :
    upsert gs (applyEvalUpdates ups (upsert gs s).1) =
      (applyEvalUpdates ups (upsert gs s).1, 0) := by
  apply upsert_noop
  intro g hg
  rw [applyEvalUpdates_any_url]
  exact upsert_any_of_mem gs s g hg

lemma upsert_filter_of_any (gs : List GameRec) (s : Store)
    (hmem : s.any (fun r => r.url = "") = true) :
    ((upsert gs s).1).filter (fun r => r.url = "") =
      s.filter (fun r => r.url = "") := by
  induction gs generalizing s with
  | nil => rfl
  | cons g gs ih =>
    have hstep : (upsert (g :: gs) s).1 = (upsert gs (insertOrIgnore s g).1).1 := rfl
    rw [hstep]
    by_cases hc : s.any (fun r => r.url = g.url) = true
    · have hins : (insertOrIgnore s g).1 = s := by
        unfold insertOrIgnore
        simp [hc]
      rw [hins]
      exact ih s hmem
    · have hins : (insertOrIgnore s g).1 = s ++ [recToRow g] := by
        unfold insertOrIgnore
        simp [hc]
      have hgurl : ¬ (g.url = "") := by
        intro hurl
        rcases List.any_eq_true.mp hmem with ⟨r, hr, hru⟩
        exact hc (List.any_eq_true.mpr ⟨r, hr, by simp_all⟩)
      rw [hins]
      rw [ih _ (by simp [List.any_append, hmem])]
      simp [List.filter_append, recToRow, hgurl]

/-- C10: every emitted record's `url` is the value of its `Link` tag with
default `""`; and since `url` is the primary key of the insert-if-absent
store, a batch upserted into a store with no empty-url row persists only
the first record whose `url` is empty — all later Link-less records are
silently dropped. -/
theorem linkless_records_collapse :
    (∀ (raw : String), ∀ rec ∈ parse_pgn_games raw,
      rec.url = pyGetD (findTags rec.pgn.toList) "Link" "") ∧
    ∀ (gs : List GameRec) (s : Store),
      (∀ r ∈ s, ¬ (r.url = "")) →
      ((upsert gs s).1).filter (fun r => r.url = "") =
        ((gs.filter (fun g => g.url = "")).take 1).map recToRow := by
  constructor
  · intro raw rec hrec
    have : ∃ i, (parse_pgn_games raw).get? i = some rec := by
      rcases List.mem_iff_get.mp hrec with ⟨i, hi⟩
      exact ⟨i, by rw [List.get?_eq_get i.isLt, hi]⟩
    rcases this with ⟨i, hi⟩
    obtain ⟨blk, _, hrec'⟩ := parse_pgn_games_get? raw i rec hi
    cases hrec'
    rfl
  · intro gs s h
    induction gs generalizing s with
    | nil =>
      have hnil : s.filter (fun r => r.url = "") = [] :=
        List.filter_eq_nil_iff.mpr (fun r hr => by simp [h r hr])
      simpa using hnil
    | cons g gs ih =>
      have hstep : (upsert (g :: gs) s).1 = (upsert gs (insertOrIgnore s g).1).1 := rfl
      rw [hstep]
      by_cases hgurl : g.url = ""
      · have hc : s.any (fun r => r.url = g.url) = false := by
          rw [List.any_eq_false]
          intro r hr
          simp [hgurl, h r hr]
        have hins : (insertOrIgnore s g).1 = s ++ [recToRow g] := by
          unfold insertOrIgnore
          simp [hc]
        rw [hins]
        rw [upsert_filter_of_any gs _
          (by simp [List.any_append, recToRow, hgurl])]
        have hnil : s.filter (fun r => r.url = "") = [] :=
          List.filter_eq_nil_iff.mpr (fun r hr => by simp [h r hr])
        simp [List.filter_append, recToRow, hgurl, hnil]
      · by_cases hc : s.any (fun r => r.url = g.url) = true
        · have hins : (insertOrIgnore s g).1 = s := by
            unfold insertOrIgnore
            simp [hc]
          rw [hins]
          simpa [hgurl] using ih s h
        · have hins : (insertOrIgnore s g).1 = s ++ [recToRow g] := by
            unfold insertOrIgnore
            simp [hc]
          rw [hins]
          have h' : ∀ r ∈ s ++ [recToRow g], ¬ (r.url = "") := by
            intro r hr
            rcases List.mem_append.mp hr with hr | hr
            · exact h r hr
            · simp at hr
              simp [hr, recToRow, hgurl]
          simpa [hgurl] using ih (s ++ [recToRow g]) h'

/-- Two Link-less records as produced by the parser from tag-only blocks
without a `Link` tag. -/
def c10recA : GameRec :=
  { url := "", pgn := "[Event \"A\"]", end_time := 0, time_control := "",
    white := "alice", black := "bob" }

def c10recB : GameRec :=
  { url := "", pgn := "[Event \"B\"]", end_time := 0, time_control := "",
    white := "carol", black := "dave" }

/-- Witness for C10: upserting a batch with two Link-less records into an
empty store persists only the first of them. -/
theorem linkless_records_collapse_witness :
    ((upsert [c10recA, c10recB] []).1).filter (fun r => r.url = "") =
      (([c10recA, c10recB].filter (fun g => g.url = "")).take 1).map recToRow :=
  linkless_records_collapse.2 [c10recA, c10recB] [] (by simp)

/-! ## Replay theorems -/

lemma take_succ_of_lt {α : Type} (l : List α) (k : ℕ) (h : k < l.length) :
    l.take (k + 1) = l.take k ++ [l.get ⟨k, h⟩] := by
  rw [List.take_succ]
  simp [List.getElem?_eq_getElem h]

set_option maxRecDepth 4000 in
lemma go_next_iterate (g : Game) (k : ℕ) (hk : k ≤ g.moves.length) :
    go_next^[k] (initView g) =
      { moves := g.moves, idx := k,
        board := { startFen := g.startFen, stack := g.moves.take k } } := by
  induction k with
  | zero => simp [initView]
  | succ k ih =>
    have hk' : k < g.moves.length := hk
    rw [Function.iterate_succ_apply', ih (Nat.le_of_lt hk')]
    rw [go_next]
    simp only [hk', dif_pos]
    rw [take_succ_of_lt g.moves k hk']
    simp [pushB]

lemma slider_fold (moves : List Move) (k : ℕ) (hk : k ≤ moves.length) (b0 : Board) :
    (List.range k).foldl
      (fun b i => if h : i < moves.length then pushB b (moves.get ⟨i, h⟩) else b) b0 =
      { startFen := b0.startFen, stack := b0.stack ++ moves.take k } := by
  induction k with
  | zero => simp
  | succ k ih =>
    have hk' : k < moves.length := hk
    rw [List.range_succ, List.foldl_append, ih (Nat.le_of_lt hk')]
    simp only [List.foldl_cons, List.foldl_nil, hk', dif_pos]
    rw [take_succ_of_lt moves k hk']
    simp [pushB]

/-- A game whose initial position is not the standard starting position
(a PGN with a `FEN`/`SetUp` header, e.g. a variant game). -/
def c3xGame : Game :=
  { startFen := "8/8/8/8/8/8/8/K6k w - - 0 1", moves := ["a1a2"],
    white := "alice", black := "bob" }

/-- C3 counterexample: for a game with a non-standard initial position,
jumping to ply 1 via the slider (which rebuilds from a fresh
`chess.Board()`, i.e. the standard start) does not give the same board as
one `go_next` from the state created at selection time (which starts from
the game's own initial board). -/
theorem slider_jump_differs_from_next :
    ¬ ((on_slider_change 1 (initView c3xGame)).board =
        (go_next^[1] (initView c3xGame)).board) := by
  decide

/-- C3 (amended): provided the game's initial position is the standard
starting position (no `FEN`/`SetUp` header), jumping to any `k ≤ N` via
the slider from the freshly selected state yields the same board as
applying `go_next` `k` times from that state. -/
theorem slider_jump_eq_iterated_next (g : Game)
    (hstd : g.startFen = standardStartFen) (k : ℕ) (hk : k ≤ g.moves.length) :
    (on_slider_change k (initView g)).board = (go_next^[k] (initView g)).board := by
  rw [go_next_iterate g k hk]
  rw [on_slider_change]
  by_cases hk0 : k = 0
  · subst hk0
    simp [initView]
  · have hne : k ≠ (initView g).idx := by simpa [initView] using hk0
    simp only [hne, if_pos, ne_eq, not_false_iff]
    rw [slider_fold (initView g).moves k (by simpa [initView] using hk) _]
    simp [initView, hstd]

/-- A one-move game from the standard starting position. -/
def c3wGame : Game :=
  { startFen := standardStartFen, moves := ["e2e4"], white := "alice", black := "bob" }

/-- Witness for C3 (amended) at `c3wGame` and `k = 1`. -/
theorem slider_jump_eq_iterated_next_witness :
    (on_slider_change 1 (initView c3wGame)).board =
      (go_next^[1] (initView c3wGame)).board :=
  slider_jump_eq_iterated_next c3wGame rfl 1 (by decide)

/-! ## Evaluation pipeline theorems -/

lemma calcScoresLoop_spec (o : Oracle) (d : ℕ) (c : Color) (mvs : List Move) :
    ∀ (b : Board) (ss : List ℚ) (ms : List Bool),
      calcScoresLoop o d c b mvs = Except.ok (ss, ms) →
      ss.length = mvs.length ∧ ms.length = mvs.length ∧
      ∀ i, i < mvs.length →
        ∃ info,
          o d { startFen := b.startFen, stack := b.stack ++ mvs.take (i + 1) } =
            Except.ok info ∧
          ss.get? i = some (scoreOf (info.score c)) ∧
          ms.get? i = some (isMateOf (info.score c)) := by
  induction mvs with
  | nil =>
    intro b ss ms h
    rw [calcScoresLoop] at h
    cases h
    simp
  | cons m rest ih =>
    intro b ss ms h
    rw [calcScoresLoop] at h
    cases ho : o d (pushB b m) <;> rw [ho] at h
    · cases h
    · rename_i info
      cases hr : calcScoresLoop o d c (pushB b m) rest <;> rw [hr] at h
      · cases h
      · rename_i pr
        obtain ⟨ss', ms'⟩ := pr
        cases h
        obtain ⟨hl1, hl2, hidx⟩ := ih (pushB b m) ss' ms' hr
        refine ⟨by simp [hl1], by simp [hl2], ?_⟩
        intro i hi
        match i with
        | 0 =>
          refine ⟨info, ?_, rfl, rfl⟩
          simpa [pushB] using ho
        | i + 1 =>
          obtain ⟨info', ho', hs', hm'⟩ := hidx i (by simpa using hi)
          refine ⟨info', ?_, by simpa using hs', by simpa using hm'⟩
          simpa [pushB, List.append_assoc] using ho'

lemma calcWdlLoop_spec (o : Oracle) (d : ℕ) (c : Color) (mvs : List Move) :
    ∀ (b : Board) (ps : List (ℚ × ℚ × ℚ)),
      calcWdlLoop o d c b mvs = Except.ok ps →
      ps.length = mvs.length ∧
      ∀ p ∈ ps, ∃ b' info, o d b' = Except.ok info ∧ p = wdlEntry (info.wdl c) := by
  induction mvs with
  | nil =>
    intro b ps h
    rw [calcWdlLoop] at h
    cases h
    simp
  | cons m rest ih =>
    intro b ps h
    rw [calcWdlLoop] at h
    cases ho : o d (pushB b m) <;> rw [ho] at h
    · cases h
    · rename_i info
      cases hr : calcWdlLoop o d c (pushB b m) rest <;> rw [hr] at h
      · cases h
      · rename_i ps'
        cases h
        obtain ⟨hl, hmem⟩ := ih (pushB b m) ps' hr
        refine ⟨by simp [hl], ?_⟩
        intro p hp
        rcases List.mem_cons.mp hp with hp | hp
        · exact ⟨pushB b m, info, ho, hp⟩
        · exact hmem p hp

lemma calculate_stockfish_scores_spec (o : Oracle) (d : ℕ) (user : String) (g : Game)
    (ss : List ℚ) (ms : List Bool)
    (h : calculate_stockfish_scores o d user g = Except.ok (ss, ms)) :
    ss.length = g.moves.length + 1 ∧ ms.length = g.moves.length + 1 ∧
    ∀ i, i < g.moves.length + 1 →
      ∃ info,
        o d { startFen := g.startFen, stack := g.moves.take i } = Except.ok info ∧
        ss.get? i = some (scoreOf (info.score (povColorFor user g))) ∧
        ms.get? i = some (isMateOf (info.score (povColorFor user g))) := by
  rw [calculate_stockfish_scores] at h
  cases ho : o d { startFen := g.startFen, stack := [] } <;> rw [ho] at h
  · cases h
  · rename_i info0
    cases hr : calcScoresLoop o d (povColorFor user g)
        { startFen := g.startFen, stack := [] } g.moves <;> rw [hr] at h
    · cases h
    · rename_i pr
      obtain ⟨ss', ms'⟩ := pr
      cases h
      obtain ⟨hl1, hl2, hidx⟩ :=
        calcScoresLoop_spec o d (povColorFor user g) g.moves _ ss' ms' hr
      refine ⟨by simp [hl1], by simp [hl2], ?_⟩
      intro i hi
      match i with
      | 0 => exact ⟨info0, by simpa using ho, rfl, rfl⟩
      | i + 1 =>
        obtain ⟨info', ho', hs', hm'⟩ := hidx i (by omega)
        exact ⟨info', by simpa using ho', by simpa using hs', by simpa using hm'⟩

lemma calculate_wdl_probabilities_spec (o : Oracle) (d : ℕ) (user : String) (g : Game)
    (ps : List (ℚ × ℚ × ℚ))
    (h : calculate_wdl_probabilities o d user g = Except.ok ps) :
    ps.length = g.moves.length + 1 ∧
    ∀ p ∈ ps, ∃ b' info, o d b' = Except.ok info ∧
      p = wdlEntry (info.wdl (povColorFor user g)) := by
  rw [calculate_wdl_probabilities] at h
  cases ho : o d { startFen := g.startFen, stack := [] } <;> rw [ho] at h
  · cases h
  · rename_i info0
    cases hr : calcWdlLoop o d (povColorFor user g)
        { startFen := g.startFen, stack := [] } g.moves <;> rw [hr] at h
    · cases h
    · rename_i ps'
      cases h
      obtain ⟨hl, hmem⟩ := calcWdlLoop_spec o d (povColorFor user g) g.moves _ ps' hr
      refine ⟨by simp [hl], ?_⟩
      intro p hp
      rcases List.mem_cons.mp hp with hp | hp
      · exact ⟨_, info0, ho, hp⟩
      · exact hmem p hp

lemma wdlEntry_sum (w : EngWdl) (h : w.wins + w.draws + w.losses = 1000) :
    |(wdlEntry w).1 + (wdlEntry w).2.1 + (wdlEntry w).2.2 - 1| ≤ 1 / 100 := by
  have hq : ((w.wins : ℚ) + w.draws + w.losses) = 1000 := by
    exact_mod_cast congrArg (fun z : ℤ => (z : ℚ)) h
  simp only [wdlEntry]
  rw [div_add_div_same, div_add_div_same, hq]
  norm_num

/-- C4: on a successful evaluation, `scores`, `is_mate` and `wdl_probs`
all have length `N + 1` (one entry per position from ply 0 through the
final ply), and — given that the oracle's WDL figures are permille values
summing to 1000 — every recorded probability triple sums to 1 within
±0.01 after division by 1000. -/
theorem evaluation_shape_invariant (o : Oracle) (d : ℕ) (user : String) (g : Game)
    (ss : List ℚ) (ms : List Bool) (ps : List (ℚ × ℚ × ℚ))
    (hs : calculate_stockfish_scores o d user g = Except.ok (ss, ms))
    (hp : calculate_wdl_probabilities o d user g = Except.ok ps)
    (hperm : ∀ b info, o d b = Except.ok info →
      ∀ c, (info.wdl c).wins + (info.wdl c).draws + (info.wdl c).losses = 1000) :
    ss.length = g.moves.length + 1 ∧ ms.length = g.moves.length + 1 ∧
    ps.length = g.moves.length + 1 ∧
    ∀ p ∈ ps, |p.1 + p.2.1 + p.2.2 - 1| ≤ 1 / 100 := by
  obtain ⟨hl1, hl2, _⟩ := calculate_stockfish_scores_spec o d user g ss ms hs
  obtain ⟨hl3, hmem⟩ := calculate_wdl_probabilities_spec o d user g ps hp
  refine ⟨hl1, hl2, hl3, ?_⟩
  intro p hpmem
  obtain ⟨b', info, ho, hpe⟩ := hmem p hpmem
  rw [hpe]
  exact wdlEntry_sum _ (hperm b' info ho _)

/-- A constant oracle: no numeric centipawn score, WDL 333/334/333. -/
def c4Oracle : Oracle :=
  fun _ _ => Except.ok
    { score := fun _ => EngScore.cp none, wdl := fun _ => ⟨333, 334, 333⟩ }

/-- A one-move game used to instantiate the evaluation theorems. -/
def c4Game : Game :=
  { startFen := standardStartFen, moves := ["e2e4"], white := "alice", black := "bob" }

/-- Witness for C4 at a concrete oracle and one-move game. -/
theorem evaluation_shape_invariant_witness :
    ([(0 : ℚ), 0].length = c4Game.moves.length + 1) ∧
    ([false, false].length = c4Game.moves.length + 1) ∧
    ([wdlEntry ⟨333, 334, 333⟩, wdlEntry ⟨333, 334, 333⟩].length =
      c4Game.moves.length + 1) ∧
    ∀ p ∈ [wdlEntry (⟨333, 334, 333⟩ : EngWdl), wdlEntry ⟨333, 334, 333⟩],
      |p.1 + p.2.1 + p.2.2 - 1| ≤ 1 / 100 :=
  evaluation_shape_invariant c4Oracle 10 "alice" c4Game
    [0, 0] [false, false] [wdlEntry ⟨333, 334, 333⟩, wdlEntry ⟨333, 334, 333⟩]
    rfl rfl (fun b info h c => by cases h; norm_num)

/-- An oracle reporting a forced mate in 12 for the POV side. -/
def c6Oracle : Oracle :=
  fun _ _ => Except.ok
    { score := fun _ => EngScore.mate 12, wdl := fun _ => ⟨1000, 0, 0⟩ }

/-- A zero-move game used for the C6 counterexample. -/
def c6Game : Game :=
  { startFen := standardStartFen, moves := [], white := "alice", black := "bob" }

/-- C6 counterexample: with `mate_score=10`, a winning forced mate in 12
is recorded as the score `10 - 12 = -2`: negative although the POV side
is winning, and of small magnitude — not a saturated large-magnitude
value whose sign indicates the winning side. -/
theorem mate_score_sign_violation :
    calculate_stockfish_scores c6Oracle 10 "alice" c6Game =
      Except.ok ([(-2 : ℚ)], [true]) ∧ ((-2 : ℚ) < 0) := by
  constructor
  · show Except.ok ([scoreOf (EngScore.mate 12)], [isMateOf (EngScore.mate 12)]) = _
    norm_num [scoreOf, isMateOf]
  · norm_num

/-- C6 (amended): for every evaluated position `i` (ply 0 through N), the
recorded entry is `isMateOf`/`scoreOf` of the oracle's POV score: a mate
with signed distance `m` gives `isMate = true` and score `10 - m`
(`-10 - m` for `m ≤ 0`, `10` for a delivered mate) — the `mate_score=10`
convention, whose sign tracks the winning side only for distances below
10 — and a non-mate score gives `isMate = false` and the centipawn value
divided by 100, or `0` when the oracle returns no numeric score. -/
theorem score_extraction_rule (o : Oracle) (d : ℕ) (user : String) (g : Game)
    (ss : List ℚ) (ms : List Bool)
    (h : calculate_stockfish_scores o d user g = Except.ok (ss, ms)) :
    ss.length = g.moves.length + 1 ∧ ms.length = g.moves.length + 1 ∧
    ∀ i, i < g.moves.length + 1 →
      ∃ info,
        o d { startFen := g.startFen, stack := g.moves.take i } = Except.ok info ∧
        ss.get? i = some (scoreOf (info.score (povColorFor user g))) ∧
        ms.get? i = some (isMateOf (info.score (povColorFor user g))) :=
  calculate_stockfish_scores_spec o d user g ss ms h

/-- Witness for C6 (amended) at the mate-in-12 oracle and zero-move game. -/
theorem score_extraction_rule_witness :
    ([(-2 : ℚ)].length = c6Game.moves.length + 1) ∧
    ([true].length = c6Game.moves.length + 1) ∧
    ∀ i, i < c6Game.moves.length + 1 →
      ∃ info,
        c6Oracle 10 { startFen := c6Game.startFen, stack := c6Game.moves.take i } =
          Except.ok info ∧
        [(-2 : ℚ)].get? i = some (scoreOf (info.score (povColorFor "alice" c6Game))) ∧
        [true].get? i = some (isMateOf (info.score (povColorFor "alice" c6Game))) :=
  score_extraction_rule c6Oracle 10 "alice" c6Game [(-2 : ℚ)] [true]
    (by
      show Except.ok ([scoreOf (EngScore.mate 12)], [isMateOf (EngScore.mate 12)]) = _
      norm_num [scoreOf, isMateOf])

/-- C7: `run_evaluation_analysis` either fails — leaving every stored
row, including every `evaluation_data` value, exactly as it was — or
succeeds and performs the single `UPDATE` for the given `url` with a blob
satisfying the equal-length every-ply shape invariant. -/
theorem oracle_failure_preserves_store (o : Oracle) (user url : String) (g : Game)
    (depth : ℕ) (store : Store) :
    (∀ e, (run_evaluation_analysis o user url g depth store).2 = Except.error e →
      (run_evaluation_analysis o user url g depth store).1 = store) ∧
    (∀ data, (run_evaluation_analysis o user url g depth store).2 = Except.ok data →
      (run_evaluation_analysis o user url g depth store).1 =
        updateEvaluation store url data ∧
      data.scores.length = g.moves.length + 1 ∧
      data.is_mate.length = g.moves.length + 1 ∧
      data.wdl_probs.length = g.moves.length + 1) := by
  rw [run_evaluation_analysis]
  cases hs : calculate_stockfish_scores o depth user g
  · exact ⟨fun e _ => rfl, fun data hd => by cases hd⟩
  · rename_i pr
    obtain ⟨ss, ms⟩ := pr
    cases hp : calculate_wdl_probabilities o depth user g
    · exact ⟨fun e _ => rfl, fun data hd => by cases hd⟩
    · rename_i ps
      refine ⟨fun e he => (by cases he), fun data hd => ?_⟩
      cases hd
      obtain ⟨hl1, hl2, _⟩ := calculate_stockfish_scores_spec o depth user g ss ms hs
      obtain ⟨hl3, _⟩ := calculate_wdl_probabilities_spec o depth user g ps hp
      exact ⟨rfl, hl1, hl2, hl3⟩

/-- A permanently failing oracle (engine unavailable). -/
def c7Oracle : Oracle := fun _ _ => Except.error "stockfish unavailable"

/-- A one-move game used to instantiate C7. -/
def c7Game : Game :=
  { startFen := standardStartFen, moves := ["e2e4"], white := "alice", black := "bob" }

/-- A store holding one row with previously persisted evaluation data. -/
def c7Blob : EvalData :=
  { scores := [0], is_mate := [false], wdl_probs := [(0, 1, 0)], depth := 10 }

def c7Store : Store :=
  [{ url := "https://example/g1", pgn := "[Event \"A\"]", end_time := 5,
     white := "alice", black := "bob", time_control := "600",
     evaluation_data := some c7Blob }]

/-- Witness for C7: a failing oracle leaves the store untouched. -/
theorem oracle_failure_preserves_store_witness :
    (run_evaluation_analysis c7Oracle "alice" "https://example/g1" c7Game 10 c7Store).1 =
      c7Store :=
  (oracle_failure_preserves_store c7Oracle "alice" "https://example/g1" c7Game
    10 c7Store).1 "stockfish unavailable" rfl

/-! ## Rating-window theorems -/

/-- C8 counterexample: a window with `end = -1 < 1` does not yield an
empty sequence — after the start-to-end clamp, the Python slice with a
negative upper bound addresses from the end of the list and returns the
first point. -/
theorem negative_end_window_not_empty :
    eloWindow [(10 : ℤ), 20] 1 (-1) = [10] ∧ eloWindow [(10 : ℤ), 20] 1 (-1) ≠ [] := by
  constructor <;> decide

/-- C8 (amended): on a sorted rating sequence of length `M`, the window
`[1, M]` selects all points; `[x, x]` with `1 ≤ x ≤ M` selects exactly
the `x`-th point; a window with `M < start ≤ end` yields an empty
sequence without error, as does a window with `end = 0`; when `start`
exceeds `end`, `start` is clamped down to `end` (so the window behaves as
`[end, end]`); `end < 1` yields an empty sequence only for `end = 0`:
negative bounds address from the end of the sequence, per Python slice
semantics. -/
theorem rating_window_boundary (α : Type) (l : List α) :
    (eloWindow l 1 (l.length : ℤ) = l) ∧
    (∀ (x : ℕ) (hx1 : 1 ≤ x) (hx2 : x ≤ l.length) (hx : x - 1 < l.length),
      eloWindow l (x : ℤ) (x : ℤ) = [l.get ⟨x - 1, hx⟩]) ∧
    (∀ a b : ℤ, a ≤ b → (l.length : ℤ) < a → eloWindow l a b = []) ∧
    (∀ a : ℤ, eloWindow l a 0 = []) ∧
    (∀ a b : ℤ, b ≤ a → eloWindow l a b = eloWindow l b b) := by
  refine ⟨?_, ?_, ?_, ?_, ?_⟩
  · rcases l with _ | ⟨x, xs⟩
    · rfl
    · have hn : (1 : ℤ) ≤ ((x :: xs).length : ℤ) := by
        have := List.length_pos.mpr (List.cons_ne_nil x xs)
        omega
      simp only [eloWindow, pySlice]
      have h1 : ¬((1 : ℤ) > ((x :: xs).length : ℤ)) := by omega
      rw [if_neg h1]
      have h2 : ¬(max (0 : ℤ) (1 - 1) < 0) := by omega
      rw [if_neg h2]
      have h3 : ¬(min ((x :: xs).length : ℤ) ((x :: xs).length : ℤ) < 0) := by omega
      rw [if_neg h3]
      have e1 : (min ((x :: xs).length : ℤ) (max (0 : ℤ) (1 - 1))).toNat = 0 := by
        omega
      have e2 : (min ((x :: xs).length : ℤ)
          (min ((x :: xs).length : ℤ) ((x :: xs).length : ℤ))).toNat =
          (x :: xs).length := by omega
      rw [e1, e2]
      simp
  · intro x hx1 hx2 hx
    simp only [eloWindow, pySlice]
    have h1 : ¬((x : ℤ) > (x : ℤ)) := by omega
    rw [if_neg h1]
    have h2 : ¬(max (0 : ℤ) ((x : ℤ) - 1) < 0) := by omega
    rw [if_neg h2]
    have h3 : ¬(min (l.length : ℤ) (x : ℤ) < 0) := by omega
    rw [if_neg h3]
    have e1 : (min (l.length : ℤ) (max (0 : ℤ) ((x : ℤ) - 1))).toNat = x - 1 := by
      omega
    have e2 : (min (l.length : ℤ) (min (l.length : ℤ) (x : ℤ))).toNat = x := by
      omega
    rw [e1, e2]
    rw [List.drop_take]
    have h6 : x - (x - 1) = 1 := by omega
    rw [h6]
    exact List.take_one_drop_eq_of_lt_length hx
  · intro a b hab hla
    simp only [eloWindow, pySlice]
    have h1 : ¬(a > b) := by omega
    rw [if_neg h1]
    have h2 : ¬(max (0 : ℤ) (a - 1) < 0) := by omega
    rw [if_neg h2]
    have h3 : ¬(min (l.length : ℤ) b < 0) := by omega
    rw [if_neg h3]
    have e1 : (min (l.length : ℤ) (max (0 : ℤ) (a - 1))).toNat = l.length := by
      omega
    rw [e1]
    exact List.drop_eq_nil_of_le (by simp)
  · intro a
    simp only [eloWindow, pySlice]
    have h3 : ¬(min (l.length : ℤ) (0 : ℤ) < 0) := by omega
    rw [if_neg h3]
    have e2 : (min (l.length : ℤ) (min (l.length : ℤ) (0 : ℤ))).toNat = 0 := by
      omega
    rw [e2]
    split <;> simp
  · intro a b hba
    simp only [eloWindow]
    have h1 : (if a > b then b else a) = b := by split <;> omega
    have h2 : (if b > b then b else b) = b := by split <;> rfl
    rw [h1, h2]

/-- Witness for C8 (amended) at the three-point sequence `[5, 7, 9]`. -/
theorem rating_window_boundary_witness :
    eloWindow [(5 : ℤ), 7, 9] 1 3 = [5, 7, 9] ∧
    eloWindow [(5 : ℤ), 7, 9] 2 2 = [7] ∧
    eloWindow [(5 : ℤ), 7, 9] 4 6 = [] ∧
    eloWindow [(5 : ℤ), 7, 9] 5 0 = [] ∧
    eloWindow [(5 : ℤ), 7, 9] 3 2 = eloWindow [(5 : ℤ), 7, 9] 2 2 := by
  refine ⟨?_, ?_, ?_, ?_, ?_⟩
  · exact (rating_window_boundary ℤ [5, 7, 9]).1
  · have h := (rating_window_boundary ℤ [5, 7, 9]).2.1 2 (by omega) (by decide)
      (by decide)
    simpa using h
  · exact (rating_window_boundary ℤ [5, 7, 9]).2.2.1 4 6 (by omega) (by decide)
  · exact (rating_window_boundary ℤ [5, 7, 9]).2.2.2.1 5
  · exact (rating_window_boundary ℤ [5, 7, 9]).2.2.2.2 3 2 (by omega)

end ChessAnalysis
